import Mathlib

/-!
Verification of the call-graph extraction core of gen.py
(Python-Flow-Diagram-Generator).

The development shallowly embeds the analysis core of `gen.py`:
the `CodeAnalyzer` AST visitor (class/function/edge extraction) and
`parse_folder` (per-file aggregation plus the optional class-selection
filter).  Python `ast` nodes are embedded as inductive types, Python
dicts as insertion-ordered association lists with Python 3.7 update
semantics, and `ast.walk` as the breadth-first traversal it is.
The GUI and the pyvis renderer are outside the analysis core and are
not modelled.
-/

set_option autoImplicit false

/-- Embedding of the Python expression nodes the analyzer inspects:
`ast.Name`, `ast.Attribute`, `ast.Call`, string constants (docstrings),
and a catch-all for every other expression form (literals, subscripts,
operators, ...), which `CodeAnalyzer` never distinguishes. -/
inductive PyExpr where
  | name : String → PyExpr
  | attribute : PyExpr → String → PyExpr
  | call : PyExpr → List PyExpr → PyExpr
  | strConst : String → PyExpr
  | otherExpr : PyExpr
deriving Repr

/-- Embedding of `ast.arguments`: parameter names by kind, plus the
default-value expressions (which `get_func_info` never reads). -/
structure PyArgs where
  posonlyargs : List String
  args : List String
  vararg : Option String
  kwonlyargs : List String
  kwarg : Option String
  defaults : List PyExpr
deriving Repr

/-- Embedding of the Python statement nodes the analyzer inspects:
`ast.ClassDef` (name, bases, body), `ast.FunctionDef`
(name, arguments, body), expression statements, and a catch-all for
every other statement form (assignments, pass, return, ...). -/
inductive PyStmt where
  | classDef : String → List PyExpr → List PyStmt → PyStmt
  | functionDef : String → PyArgs → List PyStmt → PyStmt
  | exprStmt : PyExpr → PyStmt
  | otherStmt : PyStmt
deriving Repr

/-! ## Python dicts as insertion-ordered association lists -/

/-- Lookup in a Python dict: the value stored at key `k`, if present.
Keys are unique in any list built by `dictSet`, so taking the first
match is faithful. -/
def dictFind {α : Type} : List (String × α) → String → Option α
  | [], _ => none
  | kv :: rest, k => if kv.1 = k then some kv.2 else dictFind rest k

/-- `d[k] = v` on a Python 3.7+ dict: overwrite in place if the key is
present (keeping its position), otherwise append the new pair. -/
def dictSet {α : Type} (d : List (String × α)) (k : String) (v : α) :
    List (String × α) :=
  match dictFind d k with
  | some _ => d.map (fun kv => if kv.1 = k then (k, v) else kv)
  | none => d ++ [(k, v)]

/-- `d.update(other)`: assign every pair of `other`, in order. -/
def dictUpdate {α : Type} (d other : List (String × α)) : List (String × α) :=
  other.foldl (fun acc kv => dictSet acc kv.1 kv.2) d

/-- `d.get(k, default)`. -/
def dictGet {α : Type} (d : List (String × α)) (k : String) (dflt : α) : α :=
  (dictFind d k).getD dflt

/-! ## String helpers mirroring the Python string operations used -/

/-- Python `sub in s`: `sub` occurs contiguously inside `s`. -/
def pyIn (sub s : String) : Bool :=
  s.data.tails.any (fun t => sub.data.isPrefixOf t)

/-- Python `s.endswith(suffix)`. -/
def pyEndsWith (s suffix : String) : Bool :=
  suffix.data.isSuffixOf s.data

/-- Python `s.split('.')` over the character list. -/
def splitDot : List Char → List (List Char)
  | [] => [[]]
  | c :: rest =>
    let r := splitDot rest
    if c = '.' then [] :: r
    else
      match r with
      | [] => [[c]]
      | g :: gs => (c :: g) :: gs

/-- Python `s.split('.')[-1]` (a split result is never empty). -/
def lastSegment (s : String) : String :=
  String.mk ((splitDot s.data).getLastD [])

/-- `os.path.splitext(relpath)[0].replace(os.sep, ".")` for a relative
path that ends in `".py"`: drop the three extension characters and turn
path separators into dots. -/
def moduleNameOf (relpath : String) : String :=
  String.mk ((relpath.data.take (relpath.data.length - 3)).map
    (fun c => if c = '/' then '.' else c))

/-! ## `ast.walk`: breadth-first traversal of a syntax subtree -/

/-- A heterogeneous syntax-tree node, as traversed by `ast.walk`
(statements, expressions, and the `ast.arguments` node). -/
inductive ANode where
  | stmt : PyStmt → ANode
  | expr : PyExpr → ANode
  | args : PyArgs → ANode

/-- `ast.iter_child_nodes`: the direct child nodes, in field order.
A `ClassDef` yields its bases then its body; a `FunctionDef` yields its
arguments node then its body; an arguments node yields its default
expressions. -/
def childNodes : ANode → List ANode
  | .stmt (.classDef _ bases body) => bases.map ANode.expr ++ body.map ANode.stmt
  | .stmt (.functionDef _ a body) => ANode.args a :: body.map ANode.stmt
  | .stmt (.exprStmt e) => [ANode.expr e]
  | .stmt .otherStmt => []
  | .expr (.attribute v _) => [ANode.expr v]
  | .expr (.call f as) => ANode.expr f :: as.map ANode.expr
  | .expr _ => []
  | .args a => a.defaults.map ANode.expr

mutual
/-- Node count of an expression subtree (each node counts 1). -/
def exprSize : PyExpr → Nat
  | .name _ => 1
  | .attribute v _ => exprSize v + 1
  | .call f as => exprSize f + exprListSize as + 1
  | .strConst _ => 1
  | .otherExpr => 1

/-- Total node count of a list of expressions. -/
def exprListSize : List PyExpr → Nat
  | [] => 0
  | e :: es => exprSize e + exprListSize es
end

/-- Node count of an `ast.arguments` node with its defaults. -/
def argsSize (a : PyArgs) : Nat := exprListSize a.defaults + 1

mutual
/-- Node count of a statement subtree. -/
def stmtSize : PyStmt → Nat
  | .classDef _ bases body => exprListSize bases + stmtListSize body + 1
  | .functionDef _ a body => argsSize a + stmtListSize body + 1
  | .exprStmt e => exprSize e + 1
  | .otherStmt => 1

/-- Total node count of a list of statements. -/
def stmtListSize : List PyStmt → Nat
  | [] => 0
  | s :: rest => stmtSize s + stmtListSize rest
end

/-- Node count of a heterogeneous node. -/
def nodeSize : ANode → Nat
  | .stmt s => stmtSize s
  | .expr e => exprSize e
  | .args a => argsSize a

/-- Total node count of a worklist. -/
def nodeListSize (l : List ANode) : Nat := (l.map nodeSize).sum

/-- The breadth-first worklist loop of `ast.walk`: pop a node, yield
it, push its children at the back.  The fuel argument is the exact
number of iterations the loop performs — every tree node is popped
exactly once, and `nodeSize` counts the tree nodes — so supplying
`nodeListSize` of the initial worklist as fuel computes the full
traversal while keeping the definition structurally recursive. -/
def walkAux : Nat → List ANode → List ANode
  | _, [] => []
  | 0, _ :: _ => []
  | fuel + 1, n :: rest => n :: walkAux fuel (rest ++ childNodes n)

/-- `ast.walk(node)`: the node and all its descendants, breadth first. -/
def walk (node : ANode) : List ANode := walkAux (nodeSize node) [node]

/-! ## CodeAnalyzer -/

/-- The mutable attributes of a `CodeAnalyzer` instance. -/
structure AState where
  classes : List (String × List String)
  standalone_funcs : List String
  inheritance : List (String × Option String)
  edges : List (String × String)
  func_info : List (String × String)
  modules : List (String × String)
deriving Repr, DecidableEq

/-- A fresh `CodeAnalyzer(module_name)`: every collection empty. -/
def initState : AState := ⟨[], [], [], [], [], []⟩

/-- `ast.get_docstring(node)`: the string constant heading the body,
if any.  `ast.get_docstring` runs the text through `inspect.cleandoc`;
the model's convention is that a `strConst` heading a body carries the
docstring after that normalization, so a whitespace-only docstring
appears here as the empty string. -/
def get_docstring : List PyStmt → Option String
  | .exprStmt (.strConst s) :: _ => some s
  | _ => none

/-- `CodeAnalyzer.get_func_info`: the declared name, the parenthesized
comma-joined names of `node.args.args` (the simple positional
parameters only), a newline, and the docstring or `"No docstring"`.
The source computes the last part as
`ast.get_docstring(node) or "No docstring"` — Python truthiness, so
the sentinel is recorded both when no docstring is attached (`None`)
and when the attached (cleaned) docstring is the empty string. -/
def get_func_info (name : String) (args : PyArgs) (body : List PyStmt) : String :=
  let argNames := args.args
  let signature := "(" ++ String.intercalate ", " argNames ++ ")"
  let doc := match get_docstring body with
    | some d => if d = "" then "No docstring" else d
    | none => "No docstring"
  name ++ signature ++ "\n" ++ doc

/-- `CodeAnalyzer.get_full_attribute_name`: the dotted path of an
attribute chain, with `"unknown"` for any root that is neither a plain
name nor an attribute. -/
def get_full_attribute_name : PyExpr → String
  | .name id => id
  | .attribute v attr => get_full_attribute_name v ++ "." ++ attr
  | _ => "unknown"

/-- The callee-name branch of `visit_FunctionDef`'s walk loop, for one
`ast.Call` node with function part `f`: `none` models the `continue`
(no edge recorded). -/
def calleeOfFunc : PyExpr → Option String
  | .attribute v attr =>
    match v with
    | .name id => some (id ++ "." ++ attr)
    | .attribute v' attr' =>
      some (get_full_attribute_name (.attribute v' attr') ++ "." ++ attr)
    | _ => some attr
  | .name id => some id
  | _ => none

/-- The callee names recorded while walking one declaration's subtree:
every `ast.Call` node met by `ast.walk`, in order, mapped through the
callee-reconstruction branches (calls whose target is neither a name
nor an attribute are skipped). -/
def extractCallees (node : PyStmt) : List String :=
  (walk (.stmt node)).filterMap fun n =>
    match n with
    | .expr (.call f _) => calleeOfFunc f
    | _ => none

/-- `CodeAnalyzer.visit_FunctionDef(node, parent)`: for a top-level
visit (`parent is None`) the module-prefixed name is appended to
`standalone_funcs` and its summary recorded; in both cases every call
in the walked subtree appends an edge.  In the source the edge's
caller is `parent` when `parent` is truthy and `name` otherwise; since
`name` is defined to be `parent` whenever `parent is not None`, the
caller is `name` in every case. -/
def visit_FunctionDef (module_name : String) (st : AState) (fname : String)
    (args : PyArgs) (body : List PyStmt) (parent : Option String) : AState :=
  let name := match parent with
    | none => module_name ++ "." ++ fname
    | some p => p
  let st := match parent with
    | none =>
      { st with
        standalone_funcs := st.standalone_funcs ++ [name]
        func_info := dictSet st.func_info name (get_func_info fname args body) }
    | some _ => st
  let callees := extractCallees (.functionDef fname args body)
  { st with edges := st.edges ++ callees.map (fun callee => (name, callee)) }

/-- The explicit method loop inside `visit_ClassDef`: for each
`FunctionDef` directly in the class body, append the qualified method
name to the class's method list, record its summary, and visit it with
`parent=method_name`. -/
def methodsLoop (module_name class_name : String) (st : AState) :
    List PyStmt → AState
  | [] => st
  | .functionDef fname args fbody :: rest =>
    let method_name := class_name ++ "." ++ fname
    let st := { st with
      classes := st.classes.map (fun (kv : String × List String) =>
        if kv.1 = class_name then (kv.1, kv.2 ++ [method_name]) else kv) }
    let st := { st with
      func_info := dictSet st.func_info method_name (get_func_info fname args fbody) }
    let st := visit_FunctionDef module_name st fname args fbody (some method_name)
    methodsLoop module_name class_name st rest
  | _ :: rest => methodsLoop module_name class_name st rest

/-- `[base.id for base in node.bases if isinstance(base, ast.Name)]`. -/
def baseId : PyExpr → Option String
  | .name id => some id
  | _ => none

mutual
/-- `CodeAnalyzer.visit_ClassDef`: record the module of the qualified
class name, its parent (the first plain-name base, module-prefixed, or
`None`), an empty method list; run the explicit method loop; then
`generic_visit` the node, which re-dispatches every child — base
expressions carry no visitor method and leave the state unchanged,
while each child statement (including every method `FunctionDef`,
now with the default `parent=None`) is visited again. -/
def visit_ClassDef (module_name : String) (st : AState) (cname : String)
    (bases : List PyExpr) (cbody : List PyStmt) : AState :=
  let class_name := module_name ++ "." ++ cname
  let st := { st with modules := dictSet st.modules class_name module_name }
  let baseNames := bases.filterMap baseId
  let parentVal : Option String := match baseNames with
    | [] => none
    | b :: _ => some (module_name ++ "." ++ b)
  let st := { st with inheritance := dictSet st.inheritance class_name parentVal }
  let st := { st with classes := dictSet st.classes class_name [] }
  let st := methodsLoop module_name class_name st cbody
  visitStmts module_name st cbody

/-- `NodeVisitor.visit` on one statement: `ClassDef` and `FunctionDef`
have visitor methods; every other statement falls to `generic_visit`,
whose recursion into expression children has no effect on the state
(no expression node has a visitor method, and expressions contain no
statements). -/
def visitStmt (module_name : String) (st : AState) : PyStmt → AState
  | .classDef cname bases cbody => visit_ClassDef module_name st cname bases cbody
  | .functionDef fname args fbody =>
    visit_FunctionDef module_name st fname args fbody none
  | .exprStmt _ => st
  | .otherStmt => st

/-- `generic_visit` over a list of child statements, in order. -/
def visitStmts (module_name : String) (st : AState) : List PyStmt → AState
  | [] => st
  | s :: rest => visitStmts module_name (visitStmt module_name st s) rest
end

/-- `CodeAnalyzer(module_name)` followed by `analyzer.visit(tree)`:
visiting an `ast.Module` has no dedicated method, so `generic_visit`
dispatches on each top-level statement. -/
def runAnalyzer (module_name : String) (tree : List PyStmt) : AState :=
  visitStmts module_name initState tree

/-! ## parse_folder: per-file aggregation and the selection filter -/

/-- One file discovered by `os.walk`: its path relative to the root
(as joined by `os.path.join`) and its parse outcome — `none` models
`ast.parse` raising, the exceptional path of the per-file `try`. -/
structure SourceFile where
  relpath : String
  parsed : Option (List PyStmt)
deriving Repr

/-- The six aggregates returned by `parse_folder`, plus the list of
per-file failure diagnostics the `except` branch prints
(`"Failed to parse {path}: {e}"` — the model records the offending
path of each report). -/
structure PFResult where
  all_classes : List (String × List String)
  all_funcs : List String
  all_inheritance : List (String × Option String)
  all_edges : List (String × String)
  all_func_info : List (String × String)
  all_modules : List (String × String)
  failures : List String
deriving Repr, DecidableEq

/-- The empty aggregate `parse_folder` starts from. -/
def emptyResult : PFResult := ⟨[], [], [], [], [], [], []⟩

/-- Python truthiness of the `selected_classes` argument: `None` and
the empty collection are falsy. -/
def truthy : Option (List String) → Bool
  | none => false
  | some l => !l.isEmpty

/-- The four dicts and two lists built by the filtering branch of
`parse_folder` for a single analyzed file. -/
structure Filtered where
  filtered_classes : List (String × List String)
  filtered_inheritance : List (String × Option String)
  filtered_modules : List (String × String)
  filtered_func_info : List (String × String)
  filtered_edges : List (String × String)
  filtered_funcs : List String
deriving Repr, DecidableEq

/-- The method-info loop nested in the class-filtering loop:
`for method in methods: if method in analyzer.func_info: ...`. -/
def addMethodInfos (src : List (String × String)) (ffi : List (String × String)) :
    List String → List (String × String)
  | [] => ffi
  | method :: rest =>
    match dictFind src method with
    | some info => addMethodInfos src (dictSet ffi method info) rest
    | none => addMethodInfos src ffi rest

/-- The class-filtering loop of `parse_folder` (lines 95–106): a class
is copied into the filtered dicts exactly when the final dotted
segment of its qualified name is a member of `selected_classes`; its
module (with default `'main'`), its inheritance entry (when present)
and its methods' summaries are copied along with it. -/
def classLoop (a : AState) (selected : List String) (f : Filtered) :
    List (String × List String) → Filtered
  | [] => f
  | (cls_name, methods) :: rest =>
    let short_name := lastSegment cls_name
    if short_name ∈ selected then
      let f := { f with
        filtered_classes := dictSet f.filtered_classes cls_name methods }
      let f := { f with
        filtered_modules := dictSet f.filtered_modules cls_name
          (dictGet a.modules cls_name "main") }
      let f := match dictFind a.inheritance cls_name with
        | some v =>
          { f with filtered_inheritance := dictSet f.filtered_inheritance cls_name v }
        | none => f
      let f := { f with
        filtered_func_info := addMethodInfos a.func_info f.filtered_func_info methods }
      classLoop a selected f rest
    else
      classLoop a selected f rest

/-- An edge survives the edge-filtering loop (lines 109–115) iff some
selected short name occurs as a substring of its source or of its
destination. -/
def edgeSelected (selected : List String) (e : String × String) : Bool :=
  selected.any (fun cls => pyIn cls e.1) || selected.any (fun cls => pyIn cls e.2)

/-- The whole filtering branch of `parse_folder` for one file's
analyzer output: the class loop, then the edge-filtering loop
(a conditional append is a filter), then the standalone-function
comprehension of line 122. -/
def filterAnalyzer (a : AState) (selected : List String) : Filtered :=
  let f := classLoop a selected ⟨[], [], [], [], [], []⟩ a.classes
  let f := { f with filtered_edges := a.edges.filter (edgeSelected selected) }
  let f := { f with
    filtered_funcs :=
      a.standalone_funcs.filter (fun fn => selected.any (fun cls => pyIn cls fn)) }
  f

/-- The body of `parse_folder`'s per-file loop: skip files whose name
does not end in `".py"`; on a parse failure record the diagnostic and
keep going; otherwise run the analyzer on the file's tree and merge
either the filtered or the full per-file results into the running
aggregates. -/
def processFile (selected_classes : Option (List String)) (acc : PFResult)
    (file : SourceFile) : PFResult :=
  if pyEndsWith file.relpath ".py" then
    match file.parsed with
    | none => { acc with failures := acc.failures ++ [file.relpath] }
    | some tree =>
      let module_name := moduleNameOf file.relpath
      let analyzer := runAnalyzer module_name tree
      if truthy selected_classes then
        let f := filterAnalyzer analyzer (selected_classes.getD [])
        { acc with
          all_classes := dictUpdate acc.all_classes f.filtered_classes
          all_inheritance := dictUpdate acc.all_inheritance f.filtered_inheritance
          all_modules := dictUpdate acc.all_modules f.filtered_modules
          all_func_info := dictUpdate acc.all_func_info f.filtered_func_info
          all_edges := acc.all_edges ++ f.filtered_edges
          all_funcs := acc.all_funcs ++ f.filtered_funcs }
      else
        { acc with
          all_classes := dictUpdate acc.all_classes analyzer.classes
          all_funcs := acc.all_funcs ++ analyzer.standalone_funcs
          all_inheritance := dictUpdate acc.all_inheritance analyzer.inheritance
          all_edges := acc.all_edges ++ analyzer.edges
          all_func_info := dictUpdate acc.all_func_info analyzer.func_info
          all_modules := dictUpdate acc.all_modules analyzer.modules }
  else acc

/-- `parse_folder(folder, selected_classes)`.  `os.walk` reports
errors to an `onerror` callback that defaults to `None`, so a root
that does not exist yields no directory entries at all (and no
exception): the model exposes that as the `rootExists` flag guarding
the file list.  The files are supplied in the order `os.walk`
enumerates them. -/
def parse_folder (rootExists : Bool) (files : List SourceFile)
    (selected_classes : Option (List String)) : PFResult :=
  (if rootExists then files else []).foldl (processFile selected_classes) emptyResult

/-- The per-file merge step with no selection in force: the
`else` branch of `parse_folder`'s filter conditional, which copies the
analyzer output wholesale.  Folding it over every file is the
spec's "unfiltered aggregate". -/
def processFileAll (acc : PFResult) (file : SourceFile) : PFResult :=
  if pyEndsWith file.relpath ".py" then
    match file.parsed with
    | none => { acc with failures := acc.failures ++ [file.relpath] }
    | some tree =>
      let module_name := moduleNameOf file.relpath
      let analyzer := runAnalyzer module_name tree
      { acc with
        all_classes := dictUpdate acc.all_classes analyzer.classes
        all_funcs := acc.all_funcs ++ analyzer.standalone_funcs
        all_inheritance := dictUpdate acc.all_inheritance analyzer.inheritance
        all_edges := acc.all_edges ++ analyzer.edges
        all_func_info := dictUpdate acc.all_func_info analyzer.func_info
        all_modules := dictUpdate acc.all_modules analyzer.modules }
  else acc

/-- The unfiltered aggregated model of the whole folder. -/
def unfilteredAggregate (rootExists : Bool) (files : List SourceFile) : PFResult :=
  (if rootExists then files else []).foldl processFileAll emptyResult

/-! ## Derived notions used by the statements -/

/-- Python `k in d` for a dict. -/
def dictMem {α : Type} (d : List (String × α)) (k : String) : Prop :=
  (dictFind d k).isSome = true

/-- The six aggregate collections of a result, without the diagnostic
log: two runs with equal cores return the same model. -/
def coreOf (r : PFResult) :
    List (String × List String) × List String × List (String × Option String) ×
      List (String × String) × List (String × String) × List (String × String) :=
  (r.all_classes, r.all_funcs, r.all_inheritance, r.all_edges, r.all_func_info,
    r.all_modules)

/-- The diagnostics a run over `files` prints: one entry, carrying the
file path, per `.py` file whose parse fails. -/
def failuresOf (files : List SourceFile) : List String :=
  files.filterMap (fun f =>
    if pyEndsWith f.relpath ".py" then
      match f.parsed with
      | none => some f.relpath
      | some _ => none
    else none)

/-- The short names of every class declaration the visitor reaches
from a statement list: top-level classes and classes nested in class
bodies (`generic_visit` recurses there); classes inside function
bodies are never visited, since `visit_FunctionDef` does not call
`generic_visit`. -/
def classDefNames : List PyStmt → List String
  | [] => []
  | .classDef n _ body :: rest => n :: (classDefNames body ++ classDefNames rest)
  | _ :: rest => classDefNames rest

/-- Does `isinstance(node, (ast.Name, ast.Attribute))` hold? -/
def isNameOrAttr : PyExpr → Bool
  | .name _ => true
  | .attribute _ _ => true
  | _ => false

/-- The attribute chain `root.s1.s2...sn` as an expression. -/
def attrChain (root : PyExpr) (segs : List String) : PyExpr :=
  segs.foldl PyExpr.attribute root

/-- The dotted path `root.s1.s2...sn` as a string. -/
def dotted (root : String) (segs : List String) : String :=
  segs.foldl (fun acc seg => acc ++ "." ++ seg) root

/-! ## Concrete inputs for the evaluated scenarios -/

/-- `(self)` — the arguments node of a one-parameter method. -/
def selfArgs : PyArgs := ⟨[], ["self"], none, [], none, []⟩

/-- `()` — an empty arguments node. -/
def noArgs : PyArgs := ⟨[], [], none, [], none, []⟩

/-- `util.py`: `def helper(): pass`. -/
def utilTree : List PyStmt := [.functionDef "helper" noArgs [.otherStmt]]

/-- `main.py`: `class Worker:` with `def run(self):` whose body calls
`helper()` and `self.util.helper()`. -/
def mainTree : List PyStmt :=
  [.classDef "Worker" []
    [.functionDef "run" selfArgs
      [.exprStmt (.call (.name "helper") []),
       .exprStmt (.call (.attribute (.attribute (.name "self") "util") "helper") [])]]]

/-- The two-file scenario folder, in the order `os.walk` yields it. -/
def scenarioFiles : List SourceFile :=
  [⟨"util.py", some utilTree⟩, ⟨"main.py", some mainTree⟩]

/-- `a.py`: `class Base: pass`. -/
def crossBaseTree : List PyStmt := [.classDef "Base" [] []]

/-- `b.py`: `class Child(Base): pass` — the base class lives in the
other module. -/
def crossChildTree : List PyStmt := [.classDef "Child" [.name "Base"] []]

/-- The cross-module inheritance folder. -/
def crossFiles : List SourceFile :=
  [⟨"a.py", some crossBaseTree⟩, ⟨"b.py", some crossChildTree⟩]

/-! ## Dictionary lemmas -/

theorem dictFind_map_subst {α : Type} (d : List (String × α)) (k : String) (v : α) :
    dictFind (d.map (fun kv => if kv.1 = k then (k, v) else kv)) k
      = (dictFind d k).map (fun _ => v) := by
  induction d with
  | nil => rfl
  | cons kv rest ih =>
    by_cases hk : kv.1 = k
    · simp [dictFind, hk]
    · simp [dictFind, hk, ih]

theorem dictFind_append_self {α : Type} (d : List (String × α)) (k : String) (v : α)
    (h : dictFind d k = none) : dictFind (d ++ [(k, v)]) k = some v := by
  induction d with
  | nil => simp [dictFind]
  | cons kv rest ih =>
    by_cases hk : kv.1 = k
    · simp [dictFind, hk] at h
    · simp [dictFind, hk] at h ⊢
      exact ih h

theorem dictFind_dictSet_self {α : Type} (d : List (String × α)) (k : String) (v : α) :
    dictFind (dictSet d k v) k = some v := by
  unfold dictSet
  cases h : dictFind d k with
  | none => exact dictFind_append_self d k v h
  | some w => simp [dictFind_map_subst, h]

theorem dictFind_map_subst_ne {α : Type} (d : List (String × α)) (k k' : String)
    (v : α) (hne : k' ≠ k) :
    dictFind (d.map (fun kv => if kv.1 = k then (k, v) else kv)) k'
      = dictFind d k' := by
  have hkk' : ¬ k = k' := fun h => hne h.symm
  induction d with
  | nil => rfl
  | cons kv rest ih =>
    by_cases hk : kv.1 = k
    · simp [dictFind, hk, hkk', ih]
    · by_cases hk' : kv.1 = k'
      · simp [dictFind, hk, hk', hne]
      · simp [dictFind, hk, hk', ih]

theorem dictFind_append_ne {α : Type} (d : List (String × α)) (k k' : String)
    (v : α) (hne : k' ≠ k) : dictFind (d ++ [(k, v)]) k' = dictFind d k' := by
  have hkk' : ¬ k = k' := fun h => hne h.symm
  induction d with
  | nil => simp [dictFind, hkk']
  | cons kv rest ih =>
    by_cases hk : kv.1 = k'
    · simp [dictFind, hk]
    · simp [dictFind, hk, ih]

theorem dictFind_dictSet_ne {α : Type} (d : List (String × α)) (k k' : String) (v : α)
    (hne : k' ≠ k) : dictFind (dictSet d k v) k' = dictFind d k' := by
  unfold dictSet
  cases h : dictFind d k with
  | none => exact dictFind_append_ne d k k' v hne
  | some w => exact dictFind_map_subst_ne d k k' v hne

theorem dictMem_dictSet {α : Type} (d : List (String × α)) (k k' : String) (v : α) :
    dictMem (dictSet d k v) k' ↔ k' = k ∨ dictMem d k' := by
  by_cases hk : k' = k
  · subst hk
    simp [dictMem, dictFind_dictSet_self]
  · simp [dictMem, dictFind_dictSet_ne d k k' v hk, hk]

theorem dictMem_nil {α : Type} (k : String) :
    ¬ dictMem ([] : List (String × α)) k := by
  simp [dictMem, dictFind]

theorem dictMem_cons {α : Type} (kv : String × α) (d : List (String × α)) (k : String) :
    dictMem (kv :: d) k ↔ kv.1 = k ∨ dictMem d k := by
  by_cases hk : kv.1 = k
  · simp [dictMem, dictFind, hk]
  · simp [dictMem, dictFind, hk]

theorem dictMem_dictUpdate {α : Type} (other d : List (String × α)) (k : String) :
    dictMem (dictUpdate d other) k ↔ dictMem d k ∨ dictMem other k := by
  induction other generalizing d with
  | nil => simp [dictUpdate, dictMem_nil]
  | cons kv rest ih =>
    have step : dictUpdate d (kv :: rest) = dictUpdate (dictSet d kv.1 kv.2) rest := rfl
    rw [step, ih, dictMem_dictSet, dictMem_cons]
    constructor
    · rintro ((h | h) | h)
      · exact Or.inr (Or.inl h.symm)
      · exact Or.inl h
      · exact Or.inr (Or.inr h)
    · rintro (h | (h | h))
      · exact Or.inl (Or.inr h)
      · exact Or.inl (Or.inl h.symm)
      · exact Or.inr h

theorem mem_dictSet {α : Type} (d : List (String × α)) (k : String) (v : α)
    (kv' : String × α) (h : kv' ∈ dictSet d k v) : kv' ∈ d ∨ kv' = (k, v) := by
  unfold dictSet at h
  cases hf : dictFind d k with
  | none =>
    rw [hf] at h
    rcases List.mem_append.mp h with h2 | h2
    · exact Or.inl h2
    · simp at h2
      exact Or.inr h2
  | some w =>
    rw [hf] at h
    rcases List.mem_map.mp h with ⟨x, hx, hsub⟩
    by_cases hxk : x.1 = k
    · simp [hxk] at hsub
      exact Or.inr hsub.symm
    · simp [hxk] at hsub
      subst hsub
      exact Or.inl hx

theorem dictFind_mem {α : Type} (d : List (String × α)) (k : String) (v : α)
    (h : dictFind d k = some v) : (k, v) ∈ d := by
  induction d with
  | nil => simp [dictFind] at h
  | cons kv rest ih =>
    by_cases hk : kv.1 = k
    · simp [dictFind, hk] at h
      have hkv : kv = (k, v) := by
        cases kv
        simp_all
      rw [← hkv]
      exact List.mem_cons_self _ _
    · simp [dictFind, hk] at h
      exact List.mem_cons_of_mem _ (ih h)

theorem string_append_left_cancel {a b c : String} (h : a ++ b = a ++ c) : b = c := by
  have h2 := congrArg String.data h
  simp [String.data_append] at h2
  exact String.ext h2

/-! ## Analyzer state lemmas -/

theorem visit_FunctionDef_inheritance (m : String) (st : AState) (f : String)
    (a : PyArgs) (b : List PyStmt) (p : Option String) :
    (visit_FunctionDef m st f a b p).inheritance = st.inheritance := by
  cases p <;> rfl

theorem methodsLoop_inheritance (m cn : String) (body : List PyStmt) (st : AState) :
    (methodsLoop m cn st body).inheritance = st.inheritance := by
  induction body generalizing st with
  | nil => rfl
  | cons s rest ih =>
    cases s with
    | classDef n bs bd => simp [methodsLoop, ih]
    | functionDef fname args fbody =>
      simp [methodsLoop, ih, visit_FunctionDef_inheritance]
    | exprStmt e => simp [methodsLoop, ih]
    | otherStmt => simp [methodsLoop, ih]

theorem classDefNames_cons (s : PyStmt) (rest : List PyStmt) :
    classDefNames (s :: rest) = classDefNames [s] ++ classDefNames rest := by
  cases s <;> simp [classDefNames]

mutual
/-- Visiting one statement leaves the inheritance entry of any key
that is not a reachable class's qualified name untouched. -/
theorem visitStmt_inh_find (m k : String) :
    ∀ (s : PyStmt) (st : AState), (∀ n ∈ classDefNames [s], m ++ "." ++ n ≠ k) →
      dictFind (visitStmt m st s).inheritance k = dictFind st.inheritance k
  | .classDef cname bases cbody, st, h => by
    have hhead : m ++ "." ++ cname ≠ k := by
      apply h
      simp [classDefNames]
    have hbody : ∀ n ∈ classDefNames cbody, m ++ "." ++ n ≠ k := by
      intro n hn
      apply h
      simp [classDefNames]
      exact Or.inr hn
    simp only [visitStmt, visit_ClassDef]
    rw [visitStmts_inh_find m k cbody _ hbody, methodsLoop_inheritance]
    exact dictFind_dictSet_ne _ _ _ _ (fun he => hhead he.symm)
  | .functionDef fname args fbody, st, h => by
    simp [visitStmt, visit_FunctionDef_inheritance]
  | .exprStmt e, st, h => by simp [visitStmt]
  | .otherStmt, st, h => by simp [visitStmt]

/-- The list version of `visitStmt_inh_find`. -/
theorem visitStmts_inh_find (m k : String) :
    ∀ (l : List PyStmt) (st : AState), (∀ n ∈ classDefNames l, m ++ "." ++ n ≠ k) →
      dictFind (visitStmts m st l).inheritance k = dictFind st.inheritance k
  | [], st, h => by simp [visitStmts]
  | s :: rest, st, h => by
    have hs : ∀ n ∈ classDefNames [s], m ++ "." ++ n ≠ k := by
      intro n hn
      apply h
      rw [classDefNames_cons]
      exact List.mem_append_left _ hn
    have hrest : ∀ n ∈ classDefNames rest, m ++ "." ++ n ≠ k := by
      intro n hn
      apply h
      rw [classDefNames_cons]
      exact List.mem_append_right _ hn
    simp only [visitStmts]
    rw [visitStmts_inh_find m k rest _ hrest, visitStmt_inh_find m k s st hs]
end

mutual
/-- Every inheritance entry produced by visiting one statement was
already present, or records no parent, or records a parent prefixed
with the analyzer's own module identifier. -/
theorem visitStmt_inh_mem (m : String) :
    ∀ (s : PyStmt) (st : AState) (kv : String × Option String),
      kv ∈ (visitStmt m st s).inheritance →
      kv ∈ st.inheritance ∨ kv.2 = none ∨ ∃ b, kv.2 = some (m ++ "." ++ b)
  | .classDef cname bases cbody, st, kv, hmem => by
    simp only [visitStmt, visit_ClassDef] at hmem
    rcases visitStmts_inh_mem m cbody _ kv hmem with hin | hshape
    · rw [methodsLoop_inheritance] at hin
      rcases mem_dictSet _ _ _ _ hin with hin2 | heq
      · exact Or.inl hin2
      · cases hb : bases.filterMap baseId with
        | nil =>
          rw [hb] at heq
          right
          left
          rw [heq]
        | cons b bs =>
          rw [hb] at heq
          right
          right
          exact ⟨b, by rw [heq]⟩
    · exact Or.inr hshape
  | .functionDef fname args fbody, st, kv, hmem => by
    simp only [visitStmt, visit_FunctionDef_inheritance] at hmem
    exact Or.inl hmem
  | .exprStmt e, st, kv, hmem => by
    simp only [visitStmt] at hmem
    exact Or.inl hmem
  | .otherStmt, st, kv, hmem => by
    simp only [visitStmt] at hmem
    exact Or.inl hmem

/-- The list version of `visitStmt_inh_mem`. -/
theorem visitStmts_inh_mem (m : String) :
    ∀ (l : List PyStmt) (st : AState) (kv : String × Option String),
      kv ∈ (visitStmts m st l).inheritance →
      kv ∈ st.inheritance ∨ kv.2 = none ∨ ∃ b, kv.2 = some (m ++ "." ++ b)
  | [], st, kv, hmem => by
    simp only [visitStmts] at hmem
    exact Or.inl hmem
  | s :: rest, st, kv, hmem => by
    simp only [visitStmts] at hmem
    rcases visitStmts_inh_mem m rest _ kv hmem with hin | hshape
    · exact visitStmt_inh_mem m s st kv hin
    · exact Or.inr hshape
end

/-! ## Attribute-chain lemmas -/

theorem get_full_attrChain (ss : List String) : ∀ e : PyExpr,
    get_full_attribute_name (attrChain e ss)
      = dotted (get_full_attribute_name e) ss := by
  induction ss with
  | nil => intro e; rfl
  | cons s rest ih =>
    intro e
    have hstep : attrChain e (s :: rest) = attrChain (.attribute e s) rest := rfl
    rw [hstep, ih]
    simp [dotted, get_full_attribute_name]

theorem attrChain_attr_shape (ss : List String) : ∀ (e : PyExpr) (x : String),
    ∃ v a, attrChain (.attribute e x) ss = .attribute v a := by
  induction ss with
  | nil => intro e x; exact ⟨e, x, rfl⟩
  | cons s rest ih => intro e x; exact ih (.attribute e x) s

theorem get_full_not_name_attr (r : PyExpr) (h : isNameOrAttr r = false) :
    get_full_attribute_name r = "unknown" := by
  cases r <;> first
    | rfl
    | simp [isNameOrAttr] at h

theorem dotted_append_single (r : String) (l : List String) (x : String) :
    dotted r (l ++ [x]) = dotted r l ++ "." ++ x := by
  simp [dotted, List.foldl_append]

/-! ## Selection-filter lemmas -/

theorem classLoop_classes_mem (a : AState) (sel : List String) :
    ∀ (l : List (String × List String)) (f : Filtered) (k : String),
      dictMem (classLoop a sel f l).filtered_classes k ↔
        dictMem f.filtered_classes k ∨ (k ∈ l.map Prod.fst ∧ lastSegment k ∈ sel) := by
  intro l
  induction l with
  | nil => intro f k; simp [classLoop]
  | cons kv rest ih =>
    intro f k
    obtain ⟨cls_name, methods⟩ := kv
    by_cases hsel : lastSegment cls_name ∈ sel
    · have hC : k = cls_name → lastSegment k ∈ sel := fun he => he ▸ hsel
      simp only [classLoop, hsel, if_true]
      cases hfind : dictFind a.inheritance cls_name with
      | none =>
        simp only [hfind]
        rw [ih, dictMem_dictSet]
        simp only [List.map_cons, List.mem_cons]
        tauto
      | some v =>
        simp only [hfind]
        rw [ih, dictMem_dictSet]
        simp only [List.map_cons, List.mem_cons]
        tauto
    · have hC : k = cls_name → lastSegment k ∉ sel := fun he => he ▸ hsel
      simp only [classLoop, hsel, if_false]
      rw [ih]
      simp only [List.map_cons, List.mem_cons]
      tauto

theorem filterAnalyzer_classes (a : AState) (sel : List String) :
    (filterAnalyzer a sel).filtered_classes
      = (classLoop a sel ⟨[], [], [], [], [], []⟩ a.classes).filtered_classes := by
  simp [filterAnalyzer]

theorem filterAnalyzer_edges (a : AState) (sel : List String) :
    (filterAnalyzer a sel).filtered_edges = a.edges.filter (edgeSelected sel) := by
  simp [filterAnalyzer]

theorem dictMem_dictUpdate_nil {α : Type} (d : List (String × α)) (k : String) :
    dictMem (dictUpdate [] d) k ↔ dictMem d k := by
  rw [dictMem_dictUpdate]
  simp [dictMem_nil]

/-! ## parse_folder bookkeeping lemmas -/

theorem processFile_failures (sel : Option (List String)) (acc : PFResult)
    (f : SourceFile) :
    (processFile sel acc f).failures =
      acc.failures ++
        (if pyEndsWith f.relpath ".py" then
          match f.parsed with
          | none => [f.relpath]
          | some _ => []
        else []) := by
  unfold processFile
  by_cases hpy : pyEndsWith f.relpath ".py"
  · simp only [hpy, if_true]
    cases f.parsed with
    | none => simp
    | some tree => by_cases ht : truthy sel <;> simp [ht]
  · simp [hpy]

theorem failuresOf_cons (f : SourceFile) (rest : List SourceFile) :
    failuresOf (f :: rest) =
      (if pyEndsWith f.relpath ".py" then
        match f.parsed with
        | none => [f.relpath]
        | some _ => []
      else []) ++ failuresOf rest := by
  unfold failuresOf
  by_cases hpy : pyEndsWith f.relpath ".py"
  · cases hp : f.parsed with
    | none => simp [List.filterMap_cons, hpy, hp]
    | some tree => simp [List.filterMap_cons, hpy, hp]
  · simp [List.filterMap_cons, hpy]

theorem foldl_processFile_failures (sel : Option (List String)) :
    ∀ (files : List SourceFile) (acc : PFResult),
      (files.foldl (processFile sel) acc).failures = acc.failures ++ failuresOf files := by
  intro files
  induction files with
  | nil => intro acc; simp [failuresOf]
  | cons f rest ih =>
    intro acc
    simp only [List.foldl_cons]
    rw [ih, processFile_failures, failuresOf_cons, List.append_assoc]

theorem processFile_coreOf (sel : Option (List String)) (f : SourceFile)
    (acc acc' : PFResult) (h : coreOf acc = coreOf acc') :
    coreOf (processFile sel acc f) = coreOf (processFile sel acc' f) := by
  simp only [coreOf, Prod.mk.injEq] at h
  obtain ⟨h1, h2, h3, h4, h5, h6⟩ := h
  unfold processFile
  by_cases hpy : pyEndsWith f.relpath ".py"
  · simp only [hpy, if_true]
    cases f.parsed with
    | none => simp [coreOf, h1, h2, h3, h4, h5, h6]
    | some tree =>
      by_cases ht : truthy sel <;> simp [ht, coreOf, h1, h2, h3, h4, h5, h6]
  · simp [hpy, coreOf, h1, h2, h3, h4, h5, h6]

theorem foldl_processFile_coreOf (sel : Option (List String)) :
    ∀ (files : List SourceFile) (acc acc' : PFResult),
      coreOf acc = coreOf acc' →
      coreOf (files.foldl (processFile sel) acc)
        = coreOf (files.foldl (processFile sel) acc') := by
  intro files
  induction files with
  | nil => intro acc acc' h; exact h
  | cons f rest ih =>
    intro acc acc' h
    simp only [List.foldl_cons]
    exact ih _ _ (processFile_coreOf sel f acc acc' h)

theorem processFile_bad_coreOf (sel : Option (List String)) (acc : PFResult)
    (bad : SourceFile) (hpy : pyEndsWith bad.relpath ".py" = true)
    (hparse : bad.parsed = none) :
    coreOf (processFile sel acc bad) = coreOf acc := by
  unfold processFile
  simp [hpy, hparse, coreOf]

theorem processFile_falsy (sel : Option (List String)) (hsel : truthy sel = false)
    (acc : PFResult) (f : SourceFile) : processFile sel acc f = processFileAll acc f := by
  unfold processFile processFileAll
  by_cases hpy : pyEndsWith f.relpath ".py"
  · simp only [hpy, if_true]
    cases f.parsed with
    | none => rfl
    | some tree => simp [hsel]
  · simp [hpy]

theorem foldl_processFile_falsy (sel : Option (List String)) (hsel : truthy sel = false) :
    ∀ (files : List SourceFile) (acc : PFResult),
      files.foldl (processFile sel) acc = files.foldl processFileAll acc := by
  intro files
  induction files with
  | nil => intro acc; rfl
  | cons f rest ih =>
    intro acc
    simp only [List.foldl_cons]
    rw [processFile_falsy sel hsel, ih]

theorem dictMem_iff_mem_keys {α : Type} (d : List (String × α)) (k : String) :
    dictMem d k ↔ k ∈ d.map Prod.fst := by
  induction d with
  | nil => simp [dictMem_nil]
  | cons kv rest ih =>
    rw [dictMem_cons, ih]
    simp [eq_comm]

theorem failuresOf_append (a b : List SourceFile) :
    failuresOf (a ++ b) = failuresOf a ++ failuresOf b := by
  simp [failuresOf, List.filterMap_append]

/-! ## The claims -/

/-- Claim C3, counterexample: running the core on a nonexistent root
is not an abort — `os.walk` yields nothing, so `parse_folder` returns
the empty aggregate, with an empty diagnostic log (in particular no
report naming the offending path). -/
theorem nonexistent_root_completes_run :
    parse_folder false [⟨"util.py", some utilTree⟩] none = emptyResult := rfl

/-- Claim C3 (amended): `parse_folder` never fails as a whole: a
nonexistent root yields the empty aggregate (the existence check and
its user-facing error live in the GUI caller, outside the core); an
individual file that fails to parse is reported in the diagnostics
with its file path, its contributions are excluded, and processing
continues, so the run completes and returns the aggregate extracted
from the remaining files. -/
theorem run_never_aborts_and_recovers_per_file :
    (∀ (files : List SourceFile) (sel : Option (List String)),
      parse_folder false files sel = emptyResult)
  ∧ (∀ (sel : Option (List String)) (pre post : List SourceFile) (bad : SourceFile),
      pyEndsWith bad.relpath ".py" = true → bad.parsed = none →
      coreOf (parse_folder true (pre ++ bad :: post) sel)
          = coreOf (parse_folder true (pre ++ post) sel)
        ∧ (parse_folder true (pre ++ bad :: post) sel).failures
          = failuresOf pre ++ bad.relpath :: failuresOf post) := by
  constructor
  · intro files sel
    rfl
  · intro sel pre post bad hpy hparse
    have hsplit : parse_folder true (pre ++ bad :: post) sel
        = post.foldl (processFile sel)
            (processFile sel (pre.foldl (processFile sel) emptyResult) bad) := by
      unfold parse_folder
      rw [if_pos rfl, List.foldl_append, List.foldl_cons]
    have hsplit2 : parse_folder true (pre ++ post) sel
        = post.foldl (processFile sel) (pre.foldl (processFile sel) emptyResult) := by
      unfold parse_folder
      rw [if_pos rfl, List.foldl_append]
    constructor
    · rw [hsplit, hsplit2]
      exact foldl_processFile_coreOf sel post _ _
        (processFile_bad_coreOf sel _ bad hpy hparse)
    · rw [hsplit]
      rw [foldl_processFile_failures, processFile_failures,
        foldl_processFile_failures]
      simp [emptyResult, hpy, hparse, failuresOf_append]

/-- Witness for `run_never_aborts_and_recovers_per_file`: a concrete
folder with one unparseable file between two good ones. -/
theorem run_never_aborts_and_recovers_per_file_witness :
    (pyEndsWith "broken.py" ".py" = true) ∧ ((⟨"broken.py", none⟩ : SourceFile).parsed = none)
  ∧ (coreOf (parse_folder true ([⟨"util.py", some utilTree⟩] ++ ⟨"broken.py", none⟩
          :: [⟨"main.py", some mainTree⟩]) none)
        = coreOf (parse_folder true ([⟨"util.py", some utilTree⟩]
          ++ [⟨"main.py", some mainTree⟩]) none)
    ∧ (parse_folder true ([⟨"util.py", some utilTree⟩] ++ ⟨"broken.py", none⟩
          :: [⟨"main.py", some mainTree⟩]) none).failures
        = failuresOf [⟨"util.py", some utilTree⟩]
            ++ "broken.py" :: failuresOf [⟨"main.py", some mainTree⟩]) :=
  ⟨rfl, rfl,
    run_never_aborts_and_recovers_per_file.2 none [⟨"util.py", some utilTree⟩]
      [⟨"main.py", some mainTree⟩] ⟨"broken.py", none⟩ rfl rfl⟩

/-- Claim C5: with an empty or absent selection set, `parse_folder`
is the identity on the model: it returns exactly the unfiltered
aggregate, every collection included. -/
theorem filter_identity (rootExists : Bool) (files : List SourceFile) :
    parse_folder rootExists files none = unfilteredAggregate rootExists files
  ∧ parse_folder rootExists files (some []) = unfilteredAggregate rootExists files := by
  constructor
  · unfold parse_folder unfilteredAggregate
    exact foldl_processFile_falsy none rfl _ _
  · unfold parse_folder unfilteredAggregate
    exact foldl_processFile_falsy (some []) rfl _ _

/-- Claim C1, evaluation at the failing input: for a module `main`
with `class Worker` containing method `run`, the method is recorded
as `main.Worker.run` in the class-method map, but the `generic_visit`
at the end of `visit_ClassDef` re-dispatches the same `FunctionDef`
with `parent=None`, so the very same declaration is also appended to
`standalone_funcs` as `main.run` (with its summary registered under
that name too) — a method does not appear only in the class-method
map. -/
theorem method_also_recorded_standalone :
    (runAnalyzer "main" mainTree).classes = [("main.Worker", ["main.Worker.run"])]
  ∧ (runAnalyzer "main" mainTree).standalone_funcs = ["main.run"]
  ∧ dictFind (runAnalyzer "main" mainTree).func_info "main.run"
      = some "run(self)\nNo docstring" := by
  refine ⟨?_, ?_, ?_⟩ <;>
  simp [runAnalyzer, visitStmts, visitStmt, visit_ClassDef, methodsLoop,
    visit_FunctionDef, extractCallees, walk, walkAux, childNodes, nodeSize,
    stmtSize, stmtListSize, exprSize, exprListSize, argsSize, nodeListSize,
    calleeOfFunc, get_full_attribute_name, get_func_info, get_docstring, dictSet,
    dictFind, initState, baseId, mainTree, selfArgs,
    show String.intercalate ", " ["self"] = "self" from rfl,
    show ("run(self)\n" ++ "No docstring" : String) = "run(self)\nNo docstring"
      from rfl]

/-- Claim C2, evaluation at the scenario input: the aggregate for the
two-file folder (`util.py` defining `helper()`, `main.py` defining
`class Worker` with `run(self)` calling `helper()` and
`self.util.helper()`).  The class map, the inheritance entry, and the
two expected edges all come out as the claim states, but
`standalone_functions` is `["util.helper", "main.run"]`, not
`["util.helper"]`: the method is re-visited with `parent=None` by
`visit_ClassDef`'s `generic_visit`, which also duplicates its two
edges under the caller name `main.run`. -/
theorem two_file_scenario_eval :
    parse_folder true scenarioFiles none =
      ⟨[("main.Worker", ["main.Worker.run"])],
       ["util.helper", "main.run"],
       [("main.Worker", none)],
       [("main.Worker.run", "helper"), ("main.Worker.run", "self.util.helper"),
        ("main.run", "helper"), ("main.run", "self.util.helper")],
       [("util.helper", "helper()\nNo docstring"),
        ("main.Worker.run", "run(self)\nNo docstring"),
        ("main.run", "run(self)\nNo docstring")],
       [("main.Worker", "main")],
       []⟩ := by
  simp [parse_folder, processFile, truthy, moduleNameOf, runAnalyzer,
    visitStmts, visitStmt, visit_ClassDef, methodsLoop, visit_FunctionDef,
    extractCallees, walk, walkAux, childNodes, nodeSize, stmtSize, stmtListSize,
    exprSize, exprListSize, argsSize, nodeListSize, calleeOfFunc,
    get_full_attribute_name, get_func_info, get_docstring, dictSet, dictFind,
    dictUpdate, dictGet, initState, emptyResult, baseId, scenarioFiles, utilTree,
    mainTree, selfArgs, noArgs,
    show pyEndsWith "util.py" ".py" = true from rfl,
    show pyEndsWith "main.py" ".py" = true from rfl,
    show String.intercalate ", " ["self"] = "self" from rfl,
    show String.intercalate ", " ([] : List String) = "" from rfl,
    show ("run(self)\n" ++ "No docstring" : String) = "run(self)\nNo docstring"
      from rfl,
    show ("helper()\n" ++ "No docstring" : String) = "helper()\nNo docstring"
      from rfl]

/-- Claim C4: with a non-empty selection set, a class is retained in
the aggregate exactly when the final dotted segment of its qualified
name is a member of the selection set, and an edge is retained exactly
when some selected short name occurs as a substring of its source or
destination — in particular `"Foo"` matches the endpoint
`"FooBar.run"`. -/
theorem selection_filter_retention (relpath : String) (tree : List PyStmt)
    (sel : List String) (hpy : pyEndsWith relpath ".py" = true) (hsel : sel ≠ []) :
    (∀ cls : String,
        dictMem (parse_folder true [⟨relpath, some tree⟩] (some sel)).all_classes cls ↔
          dictMem (runAnalyzer (moduleNameOf relpath) tree).classes cls
            ∧ lastSegment cls ∈ sel)
  ∧ (∀ e : String × String,
        e ∈ (parse_folder true [⟨relpath, some tree⟩] (some sel)).all_edges ↔
          e ∈ (runAnalyzer (moduleNameOf relpath) tree).edges
            ∧ ∃ c ∈ sel, (pyIn c e.1 = true ∨ pyIn c e.2 = true))
  ∧ pyIn "Foo" "FooBar.run" = true := by
  have htr : truthy (some sel) = true := by
    cases sel with
    | nil => exact absurd rfl hsel
    | cons c cs => rfl
  have hred : parse_folder true [⟨relpath, some tree⟩] (some sel)
      = processFile (some sel) emptyResult ⟨relpath, some tree⟩ := rfl
  have hstep : processFile (some sel) emptyResult ⟨relpath, some tree⟩
      = { emptyResult with
          all_classes := dictUpdate emptyResult.all_classes
            (filterAnalyzer (runAnalyzer (moduleNameOf relpath) tree) sel).filtered_classes
          all_inheritance := dictUpdate emptyResult.all_inheritance
            (filterAnalyzer (runAnalyzer (moduleNameOf relpath) tree) sel).filtered_inheritance
          all_modules := dictUpdate emptyResult.all_modules
            (filterAnalyzer (runAnalyzer (moduleNameOf relpath) tree) sel).filtered_modules
          all_func_info := dictUpdate emptyResult.all_func_info
            (filterAnalyzer (runAnalyzer (moduleNameOf relpath) tree) sel).filtered_func_info
          all_edges := emptyResult.all_edges ++
            (filterAnalyzer (runAnalyzer (moduleNameOf relpath) tree) sel).filtered_edges
          all_funcs := emptyResult.all_funcs ++
            (filterAnalyzer (runAnalyzer (moduleNameOf relpath) tree) sel).filtered_funcs } := by
    unfold processFile
    simp [hpy, htr]
  refine ⟨?_, ?_, rfl⟩
  · intro cls
    rw [hred, hstep]
    simp only [emptyResult]
    rw [show dictUpdate ([] : List (String × List String))
        (filterAnalyzer (runAnalyzer (moduleNameOf relpath) tree) sel).filtered_classes
        = dictUpdate [] (filterAnalyzer (runAnalyzer (moduleNameOf relpath) tree) sel).filtered_classes
      from rfl]
    rw [dictMem_dictUpdate_nil, filterAnalyzer_classes, classLoop_classes_mem,
      dictMem_iff_mem_keys (runAnalyzer (moduleNameOf relpath) tree).classes cls]
    simp [dictMem_nil]
  · intro e
    rw [hred, hstep]
    simp only [emptyResult, List.nil_append]
    rw [filterAnalyzer_edges]
    rw [List.mem_filter]
    simp only [edgeSelected, Bool.or_eq_true, List.any_eq_true]
    constructor
    · rintro ⟨hmem, (⟨c, hc, hp⟩ | ⟨c, hc, hp⟩)⟩
      · exact ⟨hmem, c, hc, Or.inl hp⟩
      · exact ⟨hmem, c, hc, Or.inr hp⟩
    · rintro ⟨hmem, c, hc, (hp | hp)⟩
      · exact ⟨hmem, Or.inl ⟨c, hc, hp⟩⟩
      · exact ⟨hmem, Or.inr ⟨c, hc, hp⟩⟩

/-- Witness for `selection_filter_retention`: the single-file folder
`w.py` containing `class Foo`, filtered by `{"Foo"}`. -/
theorem selection_filter_retention_witness :
    (pyEndsWith "w.py" ".py" = true) ∧ ((["Foo"] : List String) ≠ [])
  ∧ ((∀ cls : String,
        dictMem (parse_folder true [⟨"w.py", some [.classDef "Foo" [] []]⟩]
            (some ["Foo"])).all_classes cls ↔
          dictMem (runAnalyzer (moduleNameOf "w.py") [.classDef "Foo" [] []]).classes cls
            ∧ lastSegment cls ∈ ["Foo"])
    ∧ (∀ e : String × String,
        e ∈ (parse_folder true [⟨"w.py", some [.classDef "Foo" [] []]⟩]
            (some ["Foo"])).all_edges ↔
          e ∈ (runAnalyzer (moduleNameOf "w.py") [.classDef "Foo" [] []]).edges
            ∧ ∃ c ∈ ["Foo"], (pyIn c e.1 = true ∨ pyIn c e.2 = true))
    ∧ pyIn "Foo" "FooBar.run" = true) :=
  ⟨rfl, by decide,
    selection_filter_retention "w.py" [.classDef "Foo" [] []] ["Foo"] rfl (by decide)⟩

/-- Claim C6: for a call whose target is a chained attribute access
rooted in a plain name, the recorded callee is the full dotted path of
every segment down to the root name, suffixed with the final
attribute; in particular a `self.a.b.method(...)` call inside a
method's body yields the callee string `"self.a.b.method"`. -/
theorem chained_attribute_callee (r s mfinal : String) (ss : List String) :
    calleeOfFunc (.attribute (attrChain (.name r) (s :: ss)) mfinal)
        = some (dotted r ((s :: ss) ++ [mfinal]))
  ∧ extractCallees (.functionDef "mth" selfArgs
        [.exprStmt (.call (.attribute (.attribute (.attribute (.name "self") "a") "b")
          "method") [])]) = ["self.a.b.method"] := by
  constructor
  · obtain ⟨v, aa, hva⟩ := attrChain_attr_shape ss (.name r) s
    have hchain : attrChain (.name r) (s :: ss) = attrChain (.attribute (.name r) s) ss :=
      rfl
    have hg : get_full_attribute_name (PyExpr.attribute v aa) = dotted r (s :: ss) := by
      rw [← hva, get_full_attrChain]
      simp [get_full_attribute_name, dotted]
    rw [hchain, hva, dotted_append_single]
    simp [calleeOfFunc, hg]
  · simp [extractCallees, walk, walkAux, childNodes, nodeSize, stmtSize,
      stmtListSize, exprSize, exprListSize, argsSize, nodeListSize, calleeOfFunc,
      get_full_attribute_name, selfArgs]

theorem visit_FunctionDef_classes (m : String) (st : AState) (f : String)
    (a : PyArgs) (b : List PyStmt) (p : Option String) :
    (visit_FunctionDef m st f a b p).classes = st.classes := by
  cases p <;> rfl

theorem dictMem_map_append (d : List (String × List String)) (cn mn : String)
    (k : String) :
    dictMem (d.map (fun kv => if kv.1 = cn then (kv.1, kv.2 ++ [mn]) else kv)) k
      ↔ dictMem d k := by
  induction d with
  | nil => simp
  | cons kv rest ih =>
    have hfst : (if kv.1 = cn then (kv.1, kv.2 ++ [mn]) else kv).1 = kv.1 := by
      by_cases h : kv.1 = cn <;> simp [h]
    rw [List.map_cons, dictMem_cons, dictMem_cons, ih, hfst]

theorem methodsLoop_classes_mem (m cn : String) (body : List PyStmt) :
    ∀ (st : AState) (k : String),
      dictMem (methodsLoop m cn st body).classes k ↔ dictMem st.classes k := by
  induction body with
  | nil => intro st k; simp [methodsLoop]
  | cons s rest ih =>
    intro st k
    cases s with
    | classDef n bs bd => simp [methodsLoop, ih]
    | functionDef fname args fbody =>
      simp only [methodsLoop]
      rw [ih, visit_FunctionDef_classes]
      simp [dictMem_map_append]
    | exprStmt e => simp [methodsLoop, ih]
    | otherStmt => simp [methodsLoop, ih]

mutual
/-- Visiting a statement preserves the invariant that every key of
the class-method map is also a key of the inheritance map. -/
theorem visitStmt_classes_sub (m : String) :
    ∀ (s : PyStmt) (st : AState),
      (∀ k, dictMem st.classes k → dictMem st.inheritance k) →
      ∀ k, dictMem (visitStmt m st s).classes k →
        dictMem (visitStmt m st s).inheritance k
  | .classDef cname bases cbody, st, hP, k => by
    simp only [visitStmt, visit_ClassDef]
    refine visitStmts_classes_sub m cbody _ ?_ k
    intro k2 hk2
    rw [methodsLoop_inheritance]
    rw [methodsLoop_classes_mem] at hk2
    simp only at hk2 ⊢
    rcases (dictMem_dictSet _ _ _ _).mp hk2 with hk2 | hk2
    · exact (dictMem_dictSet _ _ _ _).mpr (Or.inl hk2)
    · exact (dictMem_dictSet _ _ _ _).mpr (Or.inr (hP k2 hk2))
  | .functionDef fname args fbody, st, hP, k => by
    simp only [visitStmt]
    rw [visit_FunctionDef_classes, visit_FunctionDef_inheritance]
    exact hP k
  | .exprStmt e, st, hP, k => by
    simp only [visitStmt]
    exact hP k
  | .otherStmt, st, hP, k => by
    simp only [visitStmt]
    exact hP k

/-- The list version of `visitStmt_classes_sub`. -/
theorem visitStmts_classes_sub (m : String) :
    ∀ (l : List PyStmt) (st : AState),
      (∀ k, dictMem st.classes k → dictMem st.inheritance k) →
      ∀ k, dictMem (visitStmts m st l).classes k →
        dictMem (visitStmts m st l).inheritance k
  | [], st, hP, k => by
    simp only [visitStmts]
    exact hP k
  | s :: rest, st, hP, k => by
    simp only [visitStmts]
    exact visitStmts_classes_sub m rest _ (visitStmt_classes_sub m s st hP) k
end

/-- Claim C7: processing a class declaration always inserts the
class's qualified name as a key of the inheritance map (so a class
with no usable base gets an explicit entry holding the no-parent
value, which is distinct from an absent key), and the value recorded
is built from the first base that is a plain identifier — at most one
parent even when several bases are declared, and `None` when no base
is a plain identifier.  The freshness hypothesis rules out a nested
class redeclaring the same qualified name, which would overwrite the
entry. -/
theorem inheritance_first_plain_base (m cname : String) (bases : List PyExpr)
    (cbody : List PyStmt) (st : AState) (hfresh : cname ∉ classDefNames cbody) :
    (∀ (m2 : String) (tree : List PyStmt) (k : String),
        dictMem (runAnalyzer m2 tree).classes k →
        dictMem (runAnalyzer m2 tree).inheritance k)
  ∧ dictFind (visitStmt m st (.classDef cname bases cbody)).inheritance
        (m ++ "." ++ cname)
      = some ((bases.filterMap baseId).head?.map (fun b => m ++ "." ++ b)) := by
  constructor
  · intro m2 tree k
    exact visitStmts_classes_sub m2 tree initState
      (fun k2 hk2 => absurd hk2 (dictMem_nil k2)) k
  · have hbody : ∀ n ∈ classDefNames cbody, m ++ "." ++ n ≠ m ++ "." ++ cname := by
      intro n hn heq
      apply hfresh
      rw [← string_append_left_cancel heq]
      exact hn
    simp only [visitStmt, visit_ClassDef]
    rw [visitStmts_inh_find m (m ++ "." ++ cname) cbody _ hbody,
      methodsLoop_inheritance]
    cases hb : bases.filterMap baseId with
    | nil => simp [hb, dictFind_dictSet_self]
    | cons b bs => simp [hb, dictFind_dictSet_self]

/-- Witness for `inheritance_first_plain_base`: `class C(g(), A, B)`
in module `m` — the call base is skipped, `A` and `B` are plain, and
only `A` is recorded, prefixed with the module. -/
theorem inheritance_first_plain_base_witness :
    ("C" ∉ classDefNames ([] : List PyStmt))
  ∧ ((∀ (m2 : String) (tree : List PyStmt) (k : String),
        dictMem (runAnalyzer m2 tree).classes k →
        dictMem (runAnalyzer m2 tree).inheritance k)
    ∧ dictFind (visitStmt "m" initState
          (.classDef "C" [.call (.name "g") [], .name "A", .name "B"] [])).inheritance
          ("m" ++ "." ++ "C")
        = some ((([.call (.name "g") [], .name "A", .name "B"] :
            List PyExpr).filterMap baseId).head?.map (fun b => "m" ++ "." ++ b))) :=
  ⟨by simp [classDefNames],
    inheritance_first_plain_base "m" "C" [.call (.name "g") [], .name "A", .name "B"]
      [] initState (by simp [classDefNames])⟩

/-- Claim C8, counterexample: the summary of
`def f(a, *extra, kw=0, **opts)` with no docstring is
`"f(a)\nNo docstring"` — the variadic parameter `extra` and the
keyword-only parameter `kw` are omitted from the signature entirely,
not recorded by name as the claim states. -/
theorem summary_omits_variadic_and_kwonly :
    get_func_info "f" ⟨[], ["a"], some "extra", ["kw"], some "opts", []⟩ []
        = "f(a)\nNo docstring"
  ∧ pyIn "extra" "f(a)\nNo docstring" = false
  ∧ pyIn "kw" "f(a)\nNo docstring" = false := by
  refine ⟨rfl, by decide, by decide⟩

/-- Claim C8 (amended): a declaration's recorded summary is its name,
the parenthesized comma-joined names of its simple positional
(`args.args`) parameters — defaulted ones by name only — a newline,
and then the attached description text when that text is non-empty,
or the `"No docstring"` sentinel when no description is attached or
the attached (cleaned) text is empty (the source's truthy `or`);
variadic, keyword-only, positional-only and `**` parameters, and all
default-value expressions, do not influence the summary at all. -/
theorem summary_positional_only (m : String) (st : AState) (fname : String)
    (args args2 : PyArgs) (body : List PyStmt) :
    dictFind (visit_FunctionDef m st fname args body none).func_info
        (m ++ "." ++ fname)
      = some (get_func_info fname args body)
  ∧ (∀ d, get_docstring body = some d → d ≠ "" →
      get_func_info fname args body
        = fname ++ "(" ++ String.intercalate ", " args.args ++ ")" ++ "\n" ++ d)
  ∧ (get_docstring body = none ∨ get_docstring body = some "" →
      get_func_info fname args body
        = fname ++ "(" ++ String.intercalate ", " args.args ++ ")" ++ "\n"
            ++ "No docstring")
  ∧ (args2.args = args.args →
      get_func_info fname args2 body = get_func_info fname args body) := by
  refine ⟨?_, ?_, ?_, ?_⟩
  · simp only [visit_FunctionDef]
    simp [dictFind_dictSet_self]
  · intro d hd hne
    simp [get_func_info, hd, hne, String.append_assoc]
  · rintro (h | h) <;>
      simp [get_func_info, h, String.append_assoc,
        show (")\n" ++ "No docstring" : String) = ")\nNo docstring" from rfl,
        show ("\n" ++ "No docstring" : String) = "\nNo docstring" from rfl]
  · intro h
    simp [get_func_info, h]

/-- Witness for `summary_positional_only`: `def g(x, y=1)` carrying
the docstring `"adds"`, against an arguments node that differs only in
non-positional parameters, and the same declaration with an empty
(whitespace-only, after cleaning) docstring. -/
theorem summary_positional_only_witness :
    (get_docstring [PyStmt.exprStmt (.strConst "adds")] = some "adds")
  ∧ ("adds" ≠ "")
  ∧ (get_docstring [PyStmt.exprStmt (.strConst "")] = some "")
  ∧ ((⟨[], ["x", "y"], some "v", ["k"], none, []⟩ : PyArgs).args = ["x", "y"])
  ∧ get_func_info "g" ⟨[], ["x", "y"], none, [], none, [.otherExpr]⟩
        [PyStmt.exprStmt (.strConst "adds")]
      = "g" ++ "(" ++ String.intercalate ", " ["x", "y"] ++ ")" ++ "\n" ++ "adds"
  ∧ get_func_info "g" ⟨[], ["x", "y"], none, [], none, [.otherExpr]⟩
        [PyStmt.exprStmt (.strConst "")]
      = "g" ++ "(" ++ String.intercalate ", " ["x", "y"] ++ ")" ++ "\n"
          ++ "No docstring"
  ∧ get_func_info "g" ⟨[], ["x", "y"], some "v", ["k"], none, []⟩
        [PyStmt.exprStmt (.strConst "adds")]
      = get_func_info "g" ⟨[], ["x", "y"], none, [], none, [.otherExpr]⟩
        [PyStmt.exprStmt (.strConst "adds")] :=
  ⟨rfl, by decide, rfl, rfl,
    (summary_positional_only "m" initState "g"
        ⟨[], ["x", "y"], none, [], none, [.otherExpr]⟩
        ⟨[], ["x", "y"], some "v", ["k"], none, []⟩
        [PyStmt.exprStmt (.strConst "adds")]).2.1 "adds" rfl (by decide),
    (summary_positional_only "m" initState "g"
        ⟨[], ["x", "y"], none, [], none, [.otherExpr]⟩
        ⟨[], ["x", "y"], some "v", ["k"], none, []⟩
        [PyStmt.exprStmt (.strConst "")]).2.2.1 (Or.inr rfl),
    (summary_positional_only "m" initState "g"
        ⟨[], ["x", "y"], none, [], none, [.otherExpr]⟩
        ⟨[], ["x", "y"], some "v", ["k"], none, []⟩
        [PyStmt.exprStmt (.strConst "adds")]).2.2.2 rfl⟩

/-- Claim C9: a recorded parent is always the analyzed class's own
module identifier prefixed to the base's short name, whatever module
the base class really lives in; concretely, with `a.py` declaring
`Base` and `b.py` declaring `Child(Base)`, the parent of `b.Child` is
recorded as `b.Base`, which is not a key of the aggregated class map
(the actual key of the parent is `a.Base`). -/
theorem parent_prefixed_with_own_module :
    (∀ (m : String) (tree : List PyStmt) (k p : String),
        dictFind (runAnalyzer m tree).inheritance k = some (some p) →
        ∃ b, p = m ++ "." ++ b)
  ∧ dictFind (parse_folder true crossFiles none).all_inheritance "b.Child"
      = some (some "b.Base")
  ∧ dictFind (parse_folder true crossFiles none).all_classes "b.Base" = none
  ∧ dictFind (parse_folder true crossFiles none).all_classes "a.Base" = some [] := by
  refine ⟨?_, ?_, ?_, ?_⟩
  · intro m tree k p hfind
    have hmem := dictFind_mem _ _ _ hfind
    rcases visitStmts_inh_mem m tree initState (k, some p) hmem with hin | hnone | ⟨b, hb⟩
    · simp [initState] at hin
    · simp at hnone
    · simp at hb
      exact ⟨b, hb⟩
  all_goals
  simp [parse_folder, processFile, truthy, moduleNameOf, runAnalyzer, visitStmts,
    visitStmt, visit_ClassDef, methodsLoop, visit_FunctionDef, extractCallees, walk,
    walkAux, childNodes, nodeSize, stmtSize, stmtListSize, exprSize, exprListSize,
    argsSize, nodeListSize, calleeOfFunc, get_full_attribute_name, get_func_info,
    get_docstring, dictSet, dictFind, dictUpdate, dictGet, initState, emptyResult,
    baseId, crossFiles, crossBaseTree, crossChildTree,
    show pyEndsWith "a.py" ".py" = true from rfl,
    show pyEndsWith "b.py" ".py" = true from rfl]

/-- Witness for `parent_prefixed_with_own_module`: instantiating the
universally quantified part at the `b.py` module of the cross-module
scenario. -/
theorem parent_prefixed_with_own_module_witness :
    ∃ b, "b.Base" = "b" ++ "." ++ b :=
  parent_prefixed_with_own_module.1 "b" crossChildTree "b.Child" "b.Base" (by
    simp [runAnalyzer, visitStmts, visitStmt, visit_ClassDef, methodsLoop,
      visit_FunctionDef, dictSet, dictFind, initState, baseId, crossChildTree])

/-- Claim C10: for a call whose target is a chained attribute access
whose root is neither a plain name nor an attribute, the extractor
still records an edge, with the literal text `"unknown"` as the root
segment of the callee's dotted path; concretely the body
`f().a.b()` of `def g()` in module `mod` records the edge
`("mod.g", "unknown.a.b")` (the inner call `f()` is itself walked and
recorded as a second edge, `("mod.g", "f")`). -/
theorem unknown_root_chain_callee (r : PyExpr) (s mfinal : String) (ss : List String)
    (h : isNameOrAttr r = false) :
    calleeOfFunc (.attribute (attrChain r (s :: ss)) mfinal)
        = some (dotted "unknown" ((s :: ss) ++ [mfinal]))
  ∧ (visit_FunctionDef "mod" initState "g" noArgs
      [.exprStmt (.call (.attribute (.attribute (.call (.name "f") []) "a") "b") [])]
      none).edges = [("mod.g", "unknown.a.b"), ("mod.g", "f")] := by
  constructor
  · obtain ⟨v, aa, hva⟩ := attrChain_attr_shape ss r s
    have hchain : attrChain r (s :: ss) = attrChain (.attribute r s) ss := rfl
    have hg : get_full_attribute_name (PyExpr.attribute v aa)
        = dotted "unknown" (s :: ss) := by
      rw [← hva, get_full_attrChain]
      simp [get_full_attribute_name, dotted, get_full_not_name_attr r h]
    rw [hchain, hva, dotted_append_single]
    simp [calleeOfFunc, hg]
  · simp [visit_FunctionDef, extractCallees, walk, walkAux, childNodes, nodeSize,
      stmtSize, stmtListSize, exprSize, exprListSize, argsSize, nodeListSize,
      calleeOfFunc, get_full_attribute_name, initState, noArgs, get_func_info,
      get_docstring, dictSet, dictFind]

/-- Witness for `unknown_root_chain_callee`: the chain `f().a.b`,
whose root `f()` is a call expression. -/
theorem unknown_root_chain_callee_witness :
    (isNameOrAttr (.call (.name "f") []) = false)
  ∧ (calleeOfFunc (.attribute (attrChain (.call (.name "f") []) ["a"]) "b")
        = some (dotted "unknown" (["a"] ++ ["b"]))
    ∧ (visit_FunctionDef "mod" initState "g" noArgs
        [.exprStmt (.call (.attribute (.attribute (.call (.name "f") []) "a") "b") [])]
        none).edges = [("mod.g", "unknown.a.b"), ("mod.g", "f")]) :=
  ⟨rfl, unknown_root_chain_callee (.call (.name "f") []) "a" "b" [] rfl⟩
